import Mathlib

/-!
Verification of the Tic-Tac-Toe minimax engine and its adapter.

Shallow embedding of `src/minimax_lib.py`, `src/tictactoe_adapter.py` and
the `check_winner` function of `src/game_functions.py`.

Python scores live in the reals extended with the two infinite sentinels
`float("-inf")` / `float("inf")`; every finite score the program produces is
an integer (the evaluation function returns `int`), so scores are embedded
as an `Int` extended with two infinities.
-/

/-- Scores as produced by the engine: either the two `float` infinities used
as fold sentinels, or a finite integer produced by `evaluate`. -/
inductive Score where
  | negInf : Score
  | posInf : Score
  | fin : Int → Score
deriving DecidableEq

/-- The strict-order comparison Python performs on scores
(`a < b` on `float("-inf")`, `float("inf")` and integers). -/
def Score.ltb : Score → Score → Bool
  | _, .negInf => false
  | .negInf, _ => true
  | .posInf, _ => false
  | .fin _, .posInf => true
  | .fin a, .fin b => a < b

theorem Score.ltb_irrefl (a : Score) : Score.ltb a a = false := by
  cases a <;> simp [Score.ltb]

theorem Score.ltb_trans {a b c : Score} (hab : Score.ltb a b = true)
    (hbc : Score.ltb b c = true) : Score.ltb a c = true := by
  cases a <;> cases b <;> cases c <;> simp [Score.ltb] at * <;> omega

theorem Score.ltb_asymm {a b : Score} (hab : Score.ltb a b = true) :
    Score.ltb b a = false := by
  cases a <;> cases b <;> simp [Score.ltb] at * <;> omega

theorem Score.ne_of_ltb {a b : Score} (hab : Score.ltb a b = true) : a ≠ b := by
  intro h
  rw [h, Score.ltb_irrefl] at hab
  exact Bool.false_ne_true hab

/-- Embedding of `minimax` from `src/minimax_lib.py`.  Python tests
`depth == 0 or is_terminal(state)` in a single guard; here the `depth == 0`
half is the `0` branch of the match and the `is_terminal` half is the first
test of the successor branch, which is the same case split. -/
def minimax {σ μ : Type} (state : σ) (depth : Nat) (maximizing_player : Bool)
    (get_moves : σ → Bool → List μ) (apply_move : σ → μ → Bool → σ)
    (evaluate : σ → Int) (is_terminal : σ → Bool) : Score × Option μ :=
  match depth with
  | 0 => (Score.fin (evaluate state), none)
  | d + 1 =>
    if is_terminal state then (Score.fin (evaluate state), none)
    else if maximizing_player then
      (get_moves state true).foldl (fun best move =>
        let new_state := apply_move state move true
        let score := (minimax new_state d false
          get_moves apply_move evaluate is_terminal).1
        if Score.ltb best.1 score then (score, some move) else best)
        (Score.negInf, none)
    else
      (get_moves state false).foldl (fun best move =>
        let new_state := apply_move state move false
        let score := (minimax new_state d true
          get_moves apply_move evaluate is_terminal).1
        if Score.ltb score best.1 then (score, some move) else best)
        (Score.posInf, none)

/-- Reading a board cell, `board[i]` in Python; every index the embedded
functions produce is in range on boards of length `size * size`, so the
out-of-range default is never consulted in the theorems below. -/
def cellAt (board : List String) (i : Nat) : String := board.getD i ""

/-- The number of window start offsets, Python's `len(range(size - to_win + 1))`
where `size - to_win + 1` is evaluated on (possibly negative) integers. -/
def nwin (size to_win : Nat) : Nat := ((size : Int) - to_win + 1).toNat

/-- Embedding of `check_winner` from `src/game_functions.py`: scan the four
orientations for a window of `to_win` cells all holding the player's mark.
Python's early `return True` is the `any` combinator. -/
def check_winner (board : List String) (player : String)
    (size : Nat) (to_win : Nat) : Bool :=
  ((List.range size).any (fun r =>
    (List.range (nwin size to_win)).any (fun c =>
      (List.range to_win).all (fun k =>
        cellAt board (r * size + c + k) == player))))
  || ((List.range size).any (fun c =>
    (List.range (nwin size to_win)).any (fun r =>
      (List.range to_win).all (fun k =>
        cellAt board ((r + k) * size + c) == player))))
  || ((List.range (nwin size to_win)).any (fun r =>
    (List.range (nwin size to_win)).any (fun c =>
      (List.range to_win).all (fun k =>
        cellAt board ((r + k) * size + (c + k)) == player))))
  || ((List.range (nwin size to_win)).any (fun r =>
    (List.range' (to_win - 1) (size - (to_win - 1))).any (fun c =>
      (List.range to_win).all (fun k =>
        cellAt board ((r + k) * size + (c - k)) == player))))

/-- Embedding of the `TicTacToeAdapter` construction parameters from
`src/tictactoe_adapter.py`. -/
structure TicTacToeAdapter where
  size : Nat
  to_win : Nat
  human : String := "X"
  computer : String := "O"

namespace TicTacToeAdapter

/-- `TicTacToeAdapter.get_moves`: indices of the cells not occupied by either
mark, in enumeration order. -/
def get_moves (A : TicTacToeAdapter) (state : List String)
    (_maximizing : Bool) : List Nat :=
  (state.enum.filter (fun p =>
    !(p.2 == A.human || p.2 == A.computer))).map Prod.fst

/-- `TicTacToeAdapter.apply_move`: copy the board and overwrite the chosen
cell with the mover's mark. -/
def apply_move (A : TicTacToeAdapter) (state : List String) (move : Nat)
    (maximizing : Bool) : List String :=
  state.set move (if maximizing then A.computer else A.human)

/-- Row windows of `TicTacToeAdapter.generate_lines`. -/
def row_lines (A : TicTacToeAdapter) : List (List Nat) :=
  (List.range A.size).flatMap (fun r =>
    (List.range (nwin A.size A.to_win)).map (fun c =>
      (List.range A.to_win).map (fun i => r * A.size + c + i)))

/-- Column windows of `TicTacToeAdapter.generate_lines`. -/
def col_lines (A : TicTacToeAdapter) : List (List Nat) :=
  (List.range A.size).flatMap (fun c =>
    (List.range (nwin A.size A.to_win)).map (fun r =>
      (List.range A.to_win).map (fun i => (r + i) * A.size + c)))

/-- Diagonal windows of `TicTacToeAdapter.generate_lines`. -/
def diag_lines (A : TicTacToeAdapter) : List (List Nat) :=
  (List.range (nwin A.size A.to_win)).flatMap (fun r =>
    (List.range (nwin A.size A.to_win)).map (fun c =>
      (List.range A.to_win).map (fun i => (r + i) * A.size + (c + i))))

/-- Anti-diagonal windows of `TicTacToeAdapter.generate_lines`; Python's
`range(K - 1, N)` is `List.range'` starting at `K - 1`. -/
def anti_lines (A : TicTacToeAdapter) : List (List Nat) :=
  (List.range (nwin A.size A.to_win)).flatMap (fun r =>
    (List.range' (A.to_win - 1) (A.size - (A.to_win - 1))).map (fun c =>
      (List.range A.to_win).map (fun i => (r + i) * A.size + (c - i))))

/-- `TicTacToeAdapter.generate_lines`: rows, then columns, then diagonals,
then anti-diagonals, in the source's append order. -/
def generate_lines (A : TicTacToeAdapter) : List (List Nat) :=
  A.row_lines ++ A.col_lines ++ A.diag_lines ++ A.anti_lines

/-- The loop body of `TicTacToeAdapter.evaluate`: count each side's marks on
the line, then add live computer threats and subtract live human threats. -/
def lineStep (A : TicTacToeAdapter) (state : List String) (score : Int)
    (line : List Nat) : Int :=
  let ai_count := line.countP (fun i => cellAt state i == A.computer)
  let human_count := line.countP (fun i => cellAt state i == A.human)
  if human_count = 0 ∧ 0 < ai_count then score + (ai_count : Int)
  else if ai_count = 0 ∧ 0 < human_count then score - (human_count : Int)
  else score

/-- `TicTacToeAdapter.evaluate`: win checks first (computer then human), then
the per-line heuristic fold over `generate_lines`. -/
def evaluate (A : TicTacToeAdapter) (state : List String) : Int :=
  if check_winner state A.computer A.size A.to_win then 100
  else if check_winner state A.human A.size A.to_win then -100
  else A.generate_lines.foldl (A.lineStep state) 0

/-- `TicTacToeAdapter.is_terminal`: a win for either side, or a full board. -/
def is_terminal (A : TicTacToeAdapter) (state : List String) : Bool :=
  check_winner state A.human A.size A.to_win
  || check_winner state A.computer A.size A.to_win
  || state.all (fun v => v == A.human || v == A.computer)

/-- The engine instantiated with the adapter's four callbacks, as
`TicTacToeAdapter.best_move` does. -/
def run (A : TicTacToeAdapter) (board : List String) (depth : Nat)
    (maximizing : Bool) : Score × Option Nat :=
  minimax board depth maximizing A.get_moves A.apply_move A.evaluate
    A.is_terminal

/-- `TicTacToeAdapter.best_move`: run the engine maximizing and keep only the
move component. -/
def best_move (A : TicTacToeAdapter) (board : List String) (depth : Nat) :
    Option Nat :=
  (A.run board depth true).2

/-- The score of one child of a maximizing node, as the engine computes it:
apply the move for the computer and search one level shallower, minimizing. -/
def childScore (A : TicTacToeAdapter) (board : List String) (depth : Nat)
    (move : Nat) : Score :=
  (A.run (A.apply_move board move true) (depth - 1) false).1

end TicTacToeAdapter

/-! ## Helper lemmas -/

theorem get_moves_eq_nil_iff (A : TicTacToeAdapter) (state : List String)
    (b : Bool) : A.get_moves state b = [] ↔
      state.all (fun v => v == A.human || v == A.computer) = true := by
  unfold TicTacToeAdapter.get_moves
  rw [List.map_eq_nil_iff, List.filter_eq_nil_iff, List.all_eq_true]
  constructor
  · intro h v hv
    have hv2 : v ∈ List.map Prod.snd state.enum := by
      rw [List.enum_map_snd]; exact hv
    obtain ⟨p, hp, rfl⟩ := List.mem_map.mp hv2
    have h3 := h p hp
    cases hb : (p.2 == A.human || p.2 == A.computer)
    · exact absurd (show (!(p.2 == A.human || p.2 == A.computer)) = true by
        rw [hb]; rfl) h3
    · rfl
  · intro h p hp
    have hp2 : p.2 ∈ List.map Prod.snd state.enum := List.mem_map_of_mem _ hp
    rw [List.enum_map_snd] at hp2
    have h3 := h p.2 hp2
    simp [h3]

theorem get_moves_nil_is_terminal (A : TicTacToeAdapter) (state : List String)
    (b : Bool) (h : A.get_moves state b = []) : A.is_terminal state = true := by
  unfold TicTacToeAdapter.is_terminal
  rw [(get_moves_eq_nil_iff A state b).mp h]
  simp

/-! ## C2: base case of the search -/

/-- C2: if `depth == 0` or `is_terminal(state)`, `minimax` returns exactly
`(evaluate(state), None)`; in particular, for a Tic-Tac-Toe board with no
moves available or zero depth, the adapter-instantiated engine returns a
`None` move paired with the static evaluation. -/
theorem minimax_base_case :
    (∀ {σ μ : Type} (state : σ) (depth : Nat) (maximizing : Bool)
      (gm : σ → Bool → List μ) (am : σ → μ → Bool → σ) (ev : σ → Int)
      (it : σ → Bool), depth = 0 ∨ it state = true →
      minimax state depth maximizing gm am ev it = (Score.fin (ev state), none))
    ∧ (∀ (A : TicTacToeAdapter) (board : List String) (depth : Nat)
      (maximizing : Bool), A.get_moves board maximizing = [] ∨ depth = 0 →
      A.run board depth maximizing = (Score.fin (A.evaluate board), none)) := by
  constructor
  · intro σ μ state depth maximizing gm am ev it h
    match depth, h with
    | 0, _ => rfl
    | d + 1, Or.inr ht => simp [minimax, ht]
  · intro A board depth maximizing h
    rcases h with h | rfl
    · rcases depth with _ | d
      · rfl
      · have ht := get_moves_nil_is_terminal A board maximizing h
        simp [TicTacToeAdapter.run, minimax, ht]
    · rfl

/-- Witness for C2: a zero-depth generic call and a full one-cell board. -/
theorem minimax_base_case_witness :
    minimax () 0 true (fun _ _ => ([] : List Unit)) (fun s _ _ => s)
      (fun _ => (7 : Int)) (fun _ => false) = (Score.fin 7, none)
    ∧ TicTacToeAdapter.run {size := 1, to_win := 1} ["X"] 5 true =
      (Score.fin (TicTacToeAdapter.evaluate {size := 1, to_win := 1} ["X"]),
        none) :=
  ⟨minimax_base_case.1 () 0 true _ _ _ _ (Or.inl rfl),
   minimax_base_case.2 {size := 1, to_win := 1} ["X"] 5 true
     (Or.inl (by decide))⟩

/-! ## C1: the empty-move-list branch of the recursive case -/

/-- C1 (amended): at positive depth on a non-terminal state with an empty
move list, `minimax` returns the infinite fold sentinel — `-inf` for the
maximizing side, `+inf` for the minimizing side — paired with `None`,
not `(evaluate(state), None)`. -/
theorem minimax_empty_moves {σ μ : Type} (state : σ) (depth : Nat) (b : Bool)
    (gm : σ → Bool → List μ) (am : σ → μ → Bool → σ) (ev : σ → Int)
    (it : σ → Bool) (hd : 0 < depth) (ht : it state = false)
    (hm : gm state b = []) :
    minimax state depth b gm am ev it =
      ((if b then Score.negInf else Score.posInf), none) := by
  obtain ⟨d, rfl⟩ : ∃ d, depth = d + 1 := ⟨depth - 1, by omega⟩
  cases b <;> simp [minimax, ht, hm]

/-- Counterexample to C1 as stated: concrete callbacks with an empty move
list, a false terminal test and depth 1; the engine does not return
`(evaluate(state), None)`. -/
theorem minimax_empty_moves_cex :
    ((fun _ : Unit => false) () = false)
    ∧ ((fun (_ : Unit) (_ : Bool) => ([] : List Unit)) () true = [])
    ∧ 0 < 1
    ∧ minimax () 1 true (fun _ _ => ([] : List Unit)) (fun s _ _ => s)
      (fun _ => (5 : Int)) (fun _ => false) ≠
      (Score.fin ((fun _ : Unit => (5 : Int)) ()), none) :=
  ⟨rfl, rfl, by decide, by decide⟩

/-- Witness for the amended C1 at the same concrete input. -/
theorem minimax_empty_moves_witness :
    minimax () 1 true (fun _ _ => ([] : List Unit)) (fun s _ _ => s)
      (fun _ => (5 : Int)) (fun _ => false) =
      ((if true then Score.negInf else Score.posInf), none) :=
  minimax_empty_moves () 1 true _ _ _ _ (by decide) rfl rfl

/-! ## The best-score folds of the recursive case -/

/-- The maximizing loop of `minimax`, abstracted over the child-score
function: replace the best pair exactly when the new score is strictly
greater. -/
def maxFold {μ : Type} (f : μ → Score) (l : List μ)
    (acc : Score × Option μ) : Score × Option μ :=
  l.foldl (fun best move =>
    if Score.ltb best.1 (f move) then (f move, some move) else best) acc

/-- The minimizing loop of `minimax`: replace the best pair exactly when the
new score is strictly smaller. -/
def minFold {μ : Type} (f : μ → Score) (l : List μ)
    (acc : Score × Option μ) : Score × Option μ :=
  l.foldl (fun best move =>
    if Score.ltb (f move) best.1 then (f move, some move) else best) acc

theorem maxFold_spec {μ : Type} (f : μ → Score) (l : List μ) :
    ∀ (s0 : Score) (om : Option μ),
    ∃ s om2, maxFold f l (s0, om) = (s, om2) ∧
      ((s = s0 ∧ om2 = om ∧ ∀ mv ∈ l, Score.ltb s0 (f mv) = false) ∨
       (Score.ltb s0 s = true
        ∧ (∃ m, om2 = some m
            ∧ l.find? (fun mv => decide (f mv = s)) = some m)
        ∧ ∀ mv ∈ l, Score.ltb s (f mv) = false)) := by
  induction l with
  | nil =>
    intro s0 om
    exact ⟨s0, om, rfl, Or.inl ⟨rfl, rfl, by simp⟩⟩
  | cons mv rest ih =>
    intro s0 om
    have hstep : maxFold f (mv :: rest) (s0, om) =
        maxFold f rest
          (if Score.ltb s0 (f mv) then (f mv, some mv) else (s0, om)) := rfl
    by_cases h : Score.ltb s0 (f mv) = true
    · rw [hstep, if_pos h]
      obtain ⟨s, om2, heq, hcase⟩ := ih (f mv) (some mv)
      refine ⟨s, om2, heq, Or.inr ?_⟩
      rcases hcase with ⟨hs, hom, hall⟩ | ⟨hlt, ⟨m, hom2, hfind⟩, hall⟩
      · refine ⟨hs ▸ h, ⟨mv, hom, ?_⟩, ?_⟩
        · exact List.find?_cons_of_pos _ (by rw [hs]; simp)
        · intro x hx
          rcases List.mem_cons.mp hx with rfl | hx
          · rw [hs]; exact Score.ltb_irrefl _
          · exact hs ▸ hall x hx
      · refine ⟨Score.ltb_trans h hlt, ⟨m, hom2, ?_⟩, ?_⟩
        · rw [List.find?_cons_of_neg _ (by simp [Score.ne_of_ltb hlt])]
          exact hfind
        · intro x hx
          rcases List.mem_cons.mp hx with rfl | hx
          · exact Score.ltb_asymm hlt
          · exact hall x hx
    · have h0 : Score.ltb s0 (f mv) = false := by
        cases hb : Score.ltb s0 (f mv)
        · rfl
        · exact absurd hb h
      rw [hstep, if_neg h]
      obtain ⟨s, om2, heq, hcase⟩ := ih s0 om
      refine ⟨s, om2, heq, ?_⟩
      rcases hcase with ⟨hs, hom, hall⟩ | ⟨hlt, ⟨m, hom2, hfind⟩, hall⟩
      · refine Or.inl ⟨hs, hom, ?_⟩
        intro x hx
        rcases List.mem_cons.mp hx with rfl | hx
        · exact h0
        · exact hall x hx
      · have hne : f mv ≠ s := by
          intro hcon
          rw [hcon, hlt] at h0
          exact Bool.false_ne_true h0.symm
        refine Or.inr ⟨hlt, ⟨m, hom2, ?_⟩, ?_⟩
        · rw [List.find?_cons_of_neg _ (by simp [hne])]
          exact hfind
        · intro x hx
          rcases List.mem_cons.mp hx with rfl | hx
          · cases hb : Score.ltb s (f x)
            · rfl
            · have hc := Score.ltb_trans hlt hb
              rw [h0] at hc
              exact absurd hc Bool.false_ne_true
          · exact hall x hx

theorem minFold_result {μ : Type} (f : μ → Score) (l : List μ) :
    ∀ (s0 : Score) (om : Option μ),
    ((minFold f l (s0, om)).1 = s0 ∧ ∀ mv ∈ l, Score.ltb (f mv) s0 = false)
    ∨ ∃ m ∈ l, (minFold f l (s0, om)).1 = f m := by
  induction l with
  | nil =>
    intro s0 om
    exact Or.inl ⟨rfl, by simp⟩
  | cons mv rest ih =>
    intro s0 om
    have hstep : minFold f (mv :: rest) (s0, om) =
        minFold f rest
          (if Score.ltb (f mv) s0 then (f mv, some mv) else (s0, om)) := rfl
    by_cases h : Score.ltb (f mv) s0 = true
    · rw [hstep, if_pos h]
      rcases ih (f mv) (some mv) with ⟨hs, _⟩ | ⟨m, hm, heq⟩
      · exact Or.inr ⟨mv, List.mem_cons_self _ _, hs⟩
      · exact Or.inr ⟨m, List.mem_cons_of_mem _ hm, heq⟩
    · have h0 : Score.ltb (f mv) s0 = false := by
        cases hb : Score.ltb (f mv) s0
        · rfl
        · exact absurd hb h
      rw [hstep, if_neg h]
      rcases ih s0 om with ⟨hs, hall⟩ | ⟨m, hm, heq⟩
      · refine Or.inl ⟨hs, ?_⟩
        intro x hx
        rcases List.mem_cons.mp hx with rfl | hx
        · exact h0
        · exact hall x hx
      · exact Or.inr ⟨m, List.mem_cons_of_mem _ hm, heq⟩

theorem run_succ_max (A : TicTacToeAdapter) (state : List String) (d : Nat)
    (ht : A.is_terminal state = false) :
    A.run state (d + 1) true =
      maxFold (fun mv => (A.run (A.apply_move state mv true) d false).1)
        (A.get_moves state true) (Score.negInf, none) := by
  simp [TicTacToeAdapter.run, minimax, maxFold, ht]

theorem run_succ_min (A : TicTacToeAdapter) (state : List String) (d : Nat)
    (ht : A.is_terminal state = false) :
    A.run state (d + 1) false =
      minFold (fun mv => (A.run (A.apply_move state mv false) d true).1)
        (A.get_moves state false) (Score.posInf, none) := by
  simp [TicTacToeAdapter.run, minimax, minFold, ht]

theorem is_terminal_eq_false_of_ne (A : TicTacToeAdapter)
    (state : List String) (h : ¬A.is_terminal state = true) :
    A.is_terminal state = false := by
  cases hb : A.is_terminal state
  · rfl
  · exact absurd hb h

theorem get_moves_ne_nil (A : TicTacToeAdapter) (state : List String)
    (b : Bool) (ht : A.is_terminal state = false) :
    A.get_moves state b ≠ [] := by
  intro hnil
  rw [get_moves_nil_is_terminal A state b hnil] at ht
  exact Bool.false_ne_true ht.symm

/-- On adapter callbacks the engine never returns an infinite sentinel:
an empty move list forces `is_terminal`, so every fold sees at least one
finite child score. -/
theorem run_fin (A : TicTacToeAdapter) :
    ∀ (depth : Nat) (state : List String) (b : Bool),
    ∃ n : Int, (A.run state depth b).1 = Score.fin n := by
  intro depth
  induction depth with
  | zero =>
    intro state b
    exact ⟨A.evaluate state, rfl⟩
  | succ d ih =>
    intro state b
    by_cases htt : A.is_terminal state = true
    · refine ⟨A.evaluate state, ?_⟩
      simp [TicTacToeAdapter.run, minimax, htt]
    · have ht := is_terminal_eq_false_of_ne A state htt
      have hne := get_moves_ne_nil A state b ht
      cases b
      · rw [run_succ_min A state d ht]
        rcases minFold_result
            (fun mv => (A.run (A.apply_move state mv false) d true).1)
            (A.get_moves state false) Score.posInf none with
          ⟨hs, hall⟩ | ⟨m, _, heq⟩
        · obtain ⟨mv, hmv⟩ := List.exists_mem_of_ne_nil _ hne
          obtain ⟨n, hn⟩ := ih (A.apply_move state mv false) true
          have hc := hall mv hmv
          rw [hn] at hc
          exact absurd hc (by simp [Score.ltb])
        · obtain ⟨n, hn⟩ := ih (A.apply_move state m false) true
          exact ⟨n, heq.trans hn⟩
      · rw [run_succ_max A state d ht]
        obtain ⟨s, om2, heq, hcase⟩ := maxFold_spec
          (fun mv => (A.run (A.apply_move state mv true) d false).1)
          (A.get_moves state true) Score.negInf none
        rcases hcase with ⟨hs, _, hall⟩ | ⟨_, ⟨m, _, hfind⟩, _⟩
        · obtain ⟨mv, hmv⟩ := List.exists_mem_of_ne_nil _ hne
          obtain ⟨n, hn⟩ := ih (A.apply_move state mv true) false
          have hc := hall mv hmv
          rw [hn] at hc
          exact absurd hc (by simp [Score.ltb])
        · have hfm := List.find?_some hfind
          have hfm2 : (A.run (A.apply_move state m true) d false).1 = s :=
            of_decide_eq_true hfm
          obtain ⟨n, hn⟩ := ih (A.apply_move state m true) false
          rw [heq]
          exact ⟨n, hfm2.symm.trans hn⟩

/-! ## C3: strict-improvement updates and first-seen tie-break -/

/-- C3: at positive depth on a non-terminal board, the maximizing search over
the adapter returns the score `s` that no child score strictly beats, and the
move returned — also by `best_move` — is the *first* move in `get_moves`
order whose child score equals `s`: an equal-scoring later move never
replaces the current best. -/
theorem minimax_first_optimal (A : TicTacToeAdapter) (board : List String)
    (depth : Nat) (hd : 0 < depth) (ht : A.is_terminal board = false) :
    ∃ s m, A.run board depth true = (s, some m)
      ∧ A.best_move board depth = some m
      ∧ (A.get_moves board true).find?
          (fun mv => decide (A.childScore board depth mv = s)) = some m
      ∧ ∀ mv ∈ A.get_moves board true,
          Score.ltb s (A.childScore board depth mv) = false := by
  obtain ⟨d, rfl⟩ : ∃ d, depth = d + 1 := ⟨depth - 1, by omega⟩
  obtain ⟨s, om2, heq, hcase⟩ := maxFold_spec
    (fun mv => (A.run (A.apply_move board mv true) d false).1)
    (A.get_moves board true) Score.negInf none
  have hrun : A.run board (d + 1) true = (s, om2) :=
    (run_succ_max A board d ht).trans heq
  rcases hcase with ⟨hs, _, hall⟩ | ⟨_, ⟨m, hom2, hfind⟩, hall⟩
  · obtain ⟨mv, hmv⟩ :=
      List.exists_mem_of_ne_nil _ (get_moves_ne_nil A board true ht)
    obtain ⟨n, hn⟩ := run_fin A d (A.apply_move board mv true) false
    have hc := hall mv hmv
    rw [hn] at hc
    exact absurd hc (by simp [Score.ltb])
  · subst hom2
    refine ⟨s, m, hrun, ?_, ?_, ?_⟩
    · show (A.run board (d + 1) true).2 = some m
      rw [hrun]
    · simp only [TicTacToeAdapter.childScore, Nat.add_sub_cancel]
      exact hfind
    · simp only [TicTacToeAdapter.childScore, Nat.add_sub_cancel]
      exact hall

/-- Witness for C3 on a concrete non-terminal one-cell board at depth 1. -/
theorem minimax_first_optimal_witness :
    0 < 1
    ∧ TicTacToeAdapter.is_terminal {size := 1, to_win := 1} ["1"] = false
    ∧ (∃ s m,
        TicTacToeAdapter.run {size := 1, to_win := 1} ["1"] 1 true =
          (s, some m)
        ∧ TicTacToeAdapter.best_move {size := 1, to_win := 1} ["1"] 1 = some m
        ∧ (TicTacToeAdapter.get_moves {size := 1, to_win := 1} ["1"]
            true).find? (fun mv => decide (TicTacToeAdapter.childScore
              {size := 1, to_win := 1} ["1"] 1 mv = s)) = some m
        ∧ ∀ mv ∈ TicTacToeAdapter.get_moves {size := 1, to_win := 1} ["1"]
            true, Score.ltb s (TicTacToeAdapter.childScore
              {size := 1, to_win := 1} ["1"] 1 mv) = false) :=
  ⟨by decide, by decide,
    minimax_first_optimal {size := 1, to_win := 1} ["1"] 1 (by decide)
      (by decide)⟩

/-! ## C6: the shape of `generate_lines` -/

theorem length_flatMap_const {α β : Type} (l : List α) (f : α → List β)
    (c : Nat) (h : ∀ a ∈ l, (f a).length = c) :
    (l.flatMap f).length = l.length * c := by
  rw [List.length_flatMap]
  induction l with
  | nil => simp
  | cons x xs ih =>
    simp only [List.map_cons, List.sum_cons, List.length_cons,
      Function.comp_apply]
    rw [h x (List.mem_cons_self _ _),
      ih (fun a ha => h a (List.mem_cons_of_mem _ ha))]
    ring

theorem nwin_eq (N K : Nat) (h1 : 1 ≤ K) (h2 : K ≤ N) :
    nwin N K = N - K + 1 := by
  unfold nwin
  omega

/-- C6: for board size N and run length K with 1 ≤ K ≤ N, `generate_lines`
produces N·(N-K+1) row lines, N·(N-K+1) column lines, (N-K+1)² diagonal
lines and (N-K+1)² anti-diagonal lines — 2·N·(N-K+1) + 2·(N-K+1)² lines in
total — and every line has length exactly K. -/
theorem generate_lines_count (A : TicTacToeAdapter) (h1 : 1 ≤ A.to_win)
    (h2 : A.to_win ≤ A.size) :
    A.row_lines.length = A.size * (A.size - A.to_win + 1)
    ∧ A.col_lines.length = A.size * (A.size - A.to_win + 1)
    ∧ A.diag_lines.length = (A.size - A.to_win + 1) ^ 2
    ∧ A.anti_lines.length = (A.size - A.to_win + 1) ^ 2
    ∧ A.generate_lines.length =
        2 * A.size * (A.size - A.to_win + 1)
          + 2 * (A.size - A.to_win + 1) ^ 2
    ∧ ∀ line ∈ A.generate_lines, line.length = A.to_win := by
  have hw : nwin A.size A.to_win = A.size - A.to_win + 1 :=
    nwin_eq A.size A.to_win h1 h2
  have hrow : A.row_lines.length = A.size * (A.size - A.to_win + 1) := by
    unfold TicTacToeAdapter.row_lines
    rw [length_flatMap_const _ _ (nwin A.size A.to_win) (fun a _ => by simp),
      List.length_range, hw]
  have hcol : A.col_lines.length = A.size * (A.size - A.to_win + 1) := by
    unfold TicTacToeAdapter.col_lines
    rw [length_flatMap_const _ _ (nwin A.size A.to_win) (fun a _ => by simp),
      List.length_range, hw]
  have hdiag : A.diag_lines.length = (A.size - A.to_win + 1) ^ 2 := by
    unfold TicTacToeAdapter.diag_lines
    rw [length_flatMap_const _ _ (nwin A.size A.to_win) (fun a _ => by simp),
      List.length_range, hw]
    ring
  have hanti : A.anti_lines.length = (A.size - A.to_win + 1) ^ 2 := by
    unfold TicTacToeAdapter.anti_lines
    rw [length_flatMap_const _ _ (A.size - (A.to_win - 1))
      (fun a _ => by simp), List.length_range, hw]
    have : A.size - (A.to_win - 1) = A.size - A.to_win + 1 := by omega
    rw [this]
    ring
  refine ⟨hrow, hcol, hdiag, hanti, ?_, ?_⟩
  · simp only [TicTacToeAdapter.generate_lines, List.length_append]
    rw [hrow, hcol, hdiag, hanti]
    ring
  · intro line hl
    simp only [TicTacToeAdapter.generate_lines, TicTacToeAdapter.row_lines,
      TicTacToeAdapter.col_lines, TicTacToeAdapter.diag_lines,
      TicTacToeAdapter.anti_lines, List.mem_append, List.mem_flatMap,
      List.mem_map] at hl
    rcases hl with ((⟨r, _, c, _, rfl⟩ | ⟨c, _, r, _, rfl⟩) |
      ⟨r, _, c, _, rfl⟩) | ⟨r, _, c, _, rfl⟩ <;> simp

/-- Witness for C6 on a 4×4 board with run length 3. -/
theorem generate_lines_count_witness :
    1 ≤ 3 ∧ 3 ≤ 4
    ∧ (TicTacToeAdapter.row_lines {size := 4, to_win := 3}).length =
        4 * (4 - 3 + 1)
    ∧ (TicTacToeAdapter.col_lines {size := 4, to_win := 3}).length =
        4 * (4 - 3 + 1)
    ∧ (TicTacToeAdapter.diag_lines {size := 4, to_win := 3}).length =
        (4 - 3 + 1) ^ 2
    ∧ (TicTacToeAdapter.anti_lines {size := 4, to_win := 3}).length =
        (4 - 3 + 1) ^ 2
    ∧ (TicTacToeAdapter.generate_lines {size := 4, to_win := 3}).length =
        2 * 4 * (4 - 3 + 1) + 2 * (4 - 3 + 1) ^ 2
    ∧ ∀ line ∈ TicTacToeAdapter.generate_lines {size := 4, to_win := 3},
        line.length = 3 :=
  ⟨by decide, by decide,
    generate_lines_count {size := 4, to_win := 3} (by decide) (by decide)⟩

/-! ## C7: move generation -/

theorem get_moves_mem (A : TicTacToeAdapter) (state : List String) (b : Bool)
    (i : Nat) : i ∈ A.get_moves state b ↔
      i < state.length ∧ cellAt state i ≠ A.human
        ∧ cellAt state i ≠ A.computer := by
  unfold TicTacToeAdapter.get_moves
  rw [List.mem_map]
  constructor
  · rintro ⟨⟨j, v⟩, hq, rfl⟩
    rw [List.mem_filter] at hq
    obtain ⟨hqe, hp⟩ := hq
    rw [List.mk_mem_enum_iff_getElem?] at hqe
    have hlt : j < state.length := by
      by_contra hge
      rw [List.getElem?_eq_none (by omega)] at hqe
      exact Option.noConfusion hqe
    have hcell : cellAt state j = v := by
      rw [cellAt, List.getD_eq_getElem?_getD, hqe]
      rfl
    simp only [Bool.not_eq_eq_eq_not, Bool.not_true, Bool.or_eq_false_iff,
      beq_eq_false_iff_ne, ne_eq] at hp
    rw [hcell]
    exact ⟨hlt, hp.1, hp.2⟩
  · rintro ⟨hlt, hh, hc⟩
    refine ⟨(i, cellAt state i), ?_, rfl⟩
    rw [List.mem_filter, List.mk_mem_enum_iff_getElem?]
    constructor
    · rw [cellAt, List.getD_eq_getElem?_getD, List.getElem?_eq_getElem hlt]
      rfl
    · simp [hh, hc]

/-- C7: `get_moves` returns exactly the indices of cells holding neither
mark, in strictly ascending order, and ignores the `maximizing` flag. -/
theorem get_moves_spec (A : TicTacToeAdapter) (state : List String) :
    (∀ (b : Bool) (i : Nat), i ∈ A.get_moves state b ↔
      i < state.length ∧ cellAt state i ≠ A.human
        ∧ cellAt state i ≠ A.computer)
    ∧ (∀ b : Bool, List.Pairwise (· < ·) (A.get_moves state b))
    ∧ A.get_moves state true = A.get_moves state false := by
  refine ⟨get_moves_mem A state, ?_, rfl⟩
  intro b
  have hsub :=
    List.Sublist.map Prod.fst (List.filter_sublist
      (p := fun p : Nat × String => !(p.2 == A.human || p.2 == A.computer))
      state.enum)
  rw [List.enum_map_fst] at hsub
  exact (List.pairwise_lt_range state.length).sublist hsub

/-! ## C8 and C10: applying a move -/

/-- C8: applying a legal move (one returned by `get_moves`) yields a board of
the same length holding the mover's mark at the chosen index — the computer's
mark when maximizing, the human's otherwise — and agreeing with the input
board at every other index; the input board itself is untouched, `apply_move`
being a pure function of its arguments in this embedding as in the source,
which writes only into a copy. -/
theorem apply_move_frame (A : TicTacToeAdapter) (state : List String)
    (move : Nat) (b : Bool) (hm : move ∈ A.get_moves state b) :
    (A.apply_move state move b).length = state.length
    ∧ cellAt (A.apply_move state move b) move =
        (if b then A.computer else A.human)
    ∧ ∀ i : Nat, i ≠ move →
        cellAt (A.apply_move state move b) i = cellAt state i := by
  have hlt : move < state.length := ((get_moves_mem A state b move).mp hm).1
  refine ⟨by simp [TicTacToeAdapter.apply_move], ?_, ?_⟩
  · rw [cellAt, TicTacToeAdapter.apply_move, List.getD_eq_getElem?_getD,
      List.getElem?_set_self (by simpa using hlt)]
    rfl
  · intro i hi
    rw [cellAt, cellAt, TicTacToeAdapter.apply_move,
      List.getD_eq_getElem?_getD, List.getElem?_set_ne (Ne.symm hi),
      List.getD_eq_getElem?_getD]

/-- Witness for C8: placing the computer's mark on the free cell 0. -/
theorem apply_move_frame_witness :
    0 ∈ TicTacToeAdapter.get_moves {size := 2, to_win := 2}
      ["1", "X", "O", "4"] true
    ∧ (TicTacToeAdapter.apply_move {size := 2, to_win := 2}
        ["1", "X", "O", "4"] 0 true).length = (["1", "X", "O", "4"]).length
    ∧ cellAt (TicTacToeAdapter.apply_move {size := 2, to_win := 2}
        ["1", "X", "O", "4"] 0 true) 0 =
        (if true then ({size := 2, to_win := 2} : TicTacToeAdapter).computer
          else ({size := 2, to_win := 2} : TicTacToeAdapter).human)
    ∧ ∀ i : Nat, i ≠ 0 →
        cellAt (TicTacToeAdapter.apply_move {size := 2, to_win := 2}
          ["1", "X", "O", "4"] 0 true) i = cellAt ["1", "X", "O", "4"] i :=
  ⟨by decide,
    apply_move_frame {size := 2, to_win := 2} ["1", "X", "O", "4"] 0 true
      (by decide)⟩

/-- C10: `apply_move` checks nothing about the target cell.  For every
in-range index — including a cell already occupied by either mark — it
totally (without any error path) returns the copied board with that cell
silently overwritten by the mover's mark, all other cells unchanged. -/
theorem apply_move_unchecked (A : TicTacToeAdapter) (state : List String)
    (move : Nat) (b : Bool) (hlt : move < state.length) :
    A.apply_move state move b =
      state.set move (if b then A.computer else A.human)
    ∧ cellAt (A.apply_move state move b) move =
        (if b then A.computer else A.human)
    ∧ ∀ i : Nat, i ≠ move →
        cellAt (A.apply_move state move b) i = cellAt state i := by
  refine ⟨rfl, ?_, ?_⟩
  · rw [cellAt, TicTacToeAdapter.apply_move, List.getD_eq_getElem?_getD,
      List.getElem?_set_self (by simpa using hlt)]
    rfl
  · intro i hi
    rw [cellAt, cellAt, TicTacToeAdapter.apply_move,
      List.getD_eq_getElem?_getD, List.getElem?_set_ne (Ne.symm hi),
      List.getD_eq_getElem?_getD]

/-- Witness for C10: overwriting cell 1, already occupied by the human's
mark, with the computer's mark. -/
theorem apply_move_unchecked_witness :
    1 < (["1", "X", "O", "4"]).length
    ∧ cellAt ["1", "X", "O", "4"] 1 =
        ({size := 2, to_win := 2} : TicTacToeAdapter).human
    ∧ TicTacToeAdapter.apply_move {size := 2, to_win := 2}
        ["1", "X", "O", "4"] 1 true =
        (["1", "X", "O", "4"]).set 1
          (if true then ({size := 2, to_win := 2} : TicTacToeAdapter).computer
            else ({size := 2, to_win := 2} : TicTacToeAdapter).human)
    ∧ cellAt (TicTacToeAdapter.apply_move {size := 2, to_win := 2}
        ["1", "X", "O", "4"] 1 true) 1 =
        (if true then ({size := 2, to_win := 2} : TicTacToeAdapter).computer
          else ({size := 2, to_win := 2} : TicTacToeAdapter).human)
    ∧ ∀ i : Nat, i ≠ 1 →
        cellAt (TicTacToeAdapter.apply_move {size := 2, to_win := 2}
          ["1", "X", "O", "4"] 1 true) i = cellAt ["1", "X", "O", "4"] i :=
  ⟨by decide, by decide,
    apply_move_unchecked {size := 2, to_win := 2} ["1", "X", "O", "4"] 1 true
      (by decide)⟩

/-! ## C9 and C4: the evaluation function -/

/-- C9: when `check_winner` holds for both marks at once (possible only on
boards unreachable by alternating play), `evaluate` returns +100 — the
computer's win check runs first. -/
theorem evaluate_both_wins (A : TicTacToeAdapter) (state : List String)
    (hc : check_winner state A.computer A.size A.to_win = true)
    (_hh : check_winner state A.human A.size A.to_win = true) :
    A.evaluate state = 100 := by
  rw [TicTacToeAdapter.evaluate, if_pos hc]

/-- Witness for C9: a board whose first row is all human marks and whose
second row is all computer marks. -/
theorem evaluate_both_wins_witness :
    check_winner ["X", "X", "X", "O", "O", "O", "7", "8", "9"]
      ({size := 3, to_win := 3} : TicTacToeAdapter).computer 3 3 = true
    ∧ check_winner ["X", "X", "X", "O", "O", "O", "7", "8", "9"]
      ({size := 3, to_win := 3} : TicTacToeAdapter).human 3 3 = true
    ∧ TicTacToeAdapter.evaluate {size := 3, to_win := 3}
      ["X", "X", "X", "O", "O", "O", "7", "8", "9"] = 100 :=
  ⟨by decide, by decide,
    evaluate_both_wins {size := 3, to_win := 3}
      ["X", "X", "X", "O", "O", "O", "7", "8", "9"] (by decide) (by decide)⟩

/-- The per-line contribution as the specification words it: the count of
computer marks for a line with at least one computer mark and no human mark,
minus the count of human marks for a line with at least one human mark and
no computer mark, and zero for mixed or empty lines. -/
def lineScoreSpec (A : TicTacToeAdapter) (state : List String)
    (line : List Nat) : Int :=
  if 0 < line.countP (fun i => cellAt state i == A.computer)
      ∧ line.countP (fun i => cellAt state i == A.human) = 0 then
    (line.countP (fun i => cellAt state i == A.computer) : Int)
  else if 0 < line.countP (fun i => cellAt state i == A.human)
      ∧ line.countP (fun i => cellAt state i == A.computer) = 0 then
    -(line.countP (fun i => cellAt state i == A.human) : Int)
  else 0

theorem lineStep_eq (A : TicTacToeAdapter) (state : List String) (s : Int)
    (line : List Nat) :
    A.lineStep state s line = s + lineScoreSpec A state line := by
  simp only [TicTacToeAdapter.lineStep, lineScoreSpec]
  by_cases h1 : line.countP (fun i => cellAt state i == A.human) = 0
      ∧ 0 < line.countP (fun i => cellAt state i == A.computer)
  · rw [if_pos h1, if_pos ⟨h1.2, h1.1⟩]
  · rw [if_neg h1, if_neg (show
      ¬(0 < line.countP (fun i => cellAt state i == A.computer)
        ∧ line.countP (fun i => cellAt state i == A.human) = 0) from
      fun hcon => h1 ⟨hcon.2, hcon.1⟩)]
    by_cases h2 : line.countP (fun i => cellAt state i == A.computer) = 0
        ∧ 0 < line.countP (fun i => cellAt state i == A.human)
    · rw [if_pos h2, if_pos ⟨h2.2, h2.1⟩]
      exact sub_eq_add_neg _ _
    · rw [if_neg h2, if_neg (show
        ¬(0 < line.countP (fun i => cellAt state i == A.human)
          ∧ line.countP (fun i => cellAt state i == A.computer) = 0) from
        fun hcon => h2 ⟨hcon.2, hcon.1⟩)]
      exact (add_zero s).symm

theorem foldl_lineStep (A : TicTacToeAdapter) (state : List String) :
    ∀ (lines : List (List Nat)) (s0 : Int),
    lines.foldl (A.lineStep state) s0 =
      s0 + (lines.map (lineScoreSpec A state)).sum := by
  intro lines
  induction lines with
  | nil => intro s0; simp
  | cons line rest ih =>
    intro s0
    rw [List.foldl_cons, ih, lineStep_eq, List.map_cons, List.sum_cons]
    ring

/-- C4 (amended): `evaluate` returns +100 whenever the computer has a
winning line; -100 whenever the human has one *and the computer does not*
(on the unreachable boards where both win at once, +100 is returned, per
the C9 precedence); and when neither side has won, the sum over all
generated lines of the specification's per-line contribution. -/
theorem evaluate_eq_cases (A : TicTacToeAdapter) (state : List String) :
    A.evaluate state =
      if check_winner state A.computer A.size A.to_win then 100
      else if check_winner state A.human A.size A.to_win then -100
      else (A.generate_lines.map (lineScoreSpec A state)).sum := by
  rw [TicTacToeAdapter.evaluate]
  by_cases hc : check_winner state A.computer A.size A.to_win = true
  · rw [if_pos hc, if_pos hc]
  · rw [if_neg hc, if_neg hc]
    by_cases hh : check_winner state A.human A.size A.to_win = true
    · rw [if_pos hh, if_pos hh]
    · rw [if_neg hh, if_neg hh, foldl_lineStep]
      exact zero_add _

/-- Counterexample to C4 as stated: on the double-win board the human has a
completed line, yet `evaluate` returns +100, not -100. -/
theorem evaluate_eq_cases_cex :
    check_winner ["X", "X", "X", "O", "O", "O", "7", "8", "9"]
      ({size := 3, to_win := 3} : TicTacToeAdapter).human 3 3 = true
    ∧ TicTacToeAdapter.evaluate {size := 3, to_win := 3}
        ["X", "X", "X", "O", "O", "O", "7", "8", "9"] = 100
    ∧ (100 : Int) ≠ -100 :=
  ⟨by decide, by decide, by decide⟩

/-! ## C5: the implicit scan and the materialized lines agree -/

theorem any_any_all_iff {α β γ : Type} (l1 : List α) (l2 : List β)
    (l3 : List γ) (f : α → β → γ → Nat) (p : Nat → Bool) :
    ((l1.any fun r => l2.any fun c => l3.all fun k => p (f r c k)) = true) ↔
      ∃ line ∈ l1.flatMap (fun r => l2.map (fun c => l3.map (f r c))),
        ∀ i ∈ line, p i = true := by
  simp only [List.any_eq_true, List.all_eq_true, List.mem_flatMap,
    List.mem_map]
  constructor
  · rintro ⟨r, hr, c, hc, hall⟩
    refine ⟨l3.map (f r c), ⟨r, hr, c, hc, rfl⟩, ?_⟩
    intro i hi
    obtain ⟨k, hk, rfl⟩ := List.mem_map.mp hi
    exact hall k hk
  · rintro ⟨line, ⟨r, hr, c, hc, rfl⟩, hall⟩
    exact ⟨r, hr, c, hc,
      fun k hk => hall (f r c k) (List.mem_map_of_mem _ hk)⟩

/-- C5: for a board of length size², a mark, and 1 ≤ to_win ≤ size,
`check_winner`'s implicit window scan succeeds exactly when some line of the
adapter's materialized `generate_lines` consists entirely of that mark. -/
theorem check_winner_iff_generate_lines (A : TicTacToeAdapter)
    (board : List String) (player : String)
    (hlen : board.length = A.size * A.size)
    (h1 : 1 ≤ A.to_win) (h2 : A.to_win ≤ A.size) :
    check_winner board player A.size A.to_win = true ↔
      ∃ line ∈ A.generate_lines, ∀ i ∈ line, cellAt board i = player := by
  have e1 : ((List.range A.size).any (fun r =>
      (List.range (nwin A.size A.to_win)).any (fun c =>
        (List.range A.to_win).all (fun k =>
          cellAt board (r * A.size + c + k) == player))) = true) ↔
      ∃ line ∈ A.row_lines, ∀ i ∈ line, (cellAt board i == player) = true :=
    any_any_all_iff (List.range A.size) (List.range (nwin A.size A.to_win))
      (List.range A.to_win) (fun r c k => r * A.size + c + k)
      (fun i => cellAt board i == player)
  have e2 : ((List.range A.size).any (fun c =>
      (List.range (nwin A.size A.to_win)).any (fun r =>
        (List.range A.to_win).all (fun k =>
          cellAt board ((r + k) * A.size + c) == player))) = true) ↔
      ∃ line ∈ A.col_lines, ∀ i ∈ line, (cellAt board i == player) = true :=
    any_any_all_iff (List.range A.size) (List.range (nwin A.size A.to_win))
      (List.range A.to_win) (fun c r k => (r + k) * A.size + c)
      (fun i => cellAt board i == player)
  have e3 : ((List.range (nwin A.size A.to_win)).any (fun r =>
      (List.range (nwin A.size A.to_win)).any (fun c =>
        (List.range A.to_win).all (fun k =>
          cellAt board ((r + k) * A.size + (c + k)) == player))) = true) ↔
      ∃ line ∈ A.diag_lines, ∀ i ∈ line, (cellAt board i == player) = true :=
    any_any_all_iff (List.range (nwin A.size A.to_win))
      (List.range (nwin A.size A.to_win)) (List.range A.to_win)
      (fun r c k => (r + k) * A.size + (c + k))
      (fun i => cellAt board i == player)
  have e4 : ((List.range (nwin A.size A.to_win)).any (fun r =>
      (List.range' (A.to_win - 1) (A.size - (A.to_win - 1))).any (fun c =>
        (List.range A.to_win).all (fun k =>
          cellAt board ((r + k) * A.size + (c - k)) == player))) = true) ↔
      ∃ line ∈ A.anti_lines, ∀ i ∈ line, (cellAt board i == player) = true :=
    any_any_all_iff (List.range (nwin A.size A.to_win))
      (List.range' (A.to_win - 1) (A.size - (A.to_win - 1)))
      (List.range A.to_win) (fun r c k => (r + k) * A.size + (c - k))
      (fun i => cellAt board i == player)
  unfold check_winner
  simp only [Bool.or_eq_true]
  constructor
  · rintro (((h | h) | h) | h)
    · obtain ⟨line, hm, hp⟩ := e1.mp h
      refine ⟨line, ?_, fun i hi => eq_of_beq (hp i hi)⟩
      unfold TicTacToeAdapter.generate_lines
      simp only [List.mem_append]
      tauto
    · obtain ⟨line, hm, hp⟩ := e2.mp h
      refine ⟨line, ?_, fun i hi => eq_of_beq (hp i hi)⟩
      unfold TicTacToeAdapter.generate_lines
      simp only [List.mem_append]
      tauto
    · obtain ⟨line, hm, hp⟩ := e3.mp h
      refine ⟨line, ?_, fun i hi => eq_of_beq (hp i hi)⟩
      unfold TicTacToeAdapter.generate_lines
      simp only [List.mem_append]
      tauto
    · obtain ⟨line, hm, hp⟩ := e4.mp h
      refine ⟨line, ?_, fun i hi => eq_of_beq (hp i hi)⟩
      unfold TicTacToeAdapter.generate_lines
      simp only [List.mem_append]
      tauto
  · rintro ⟨line, hmem, hp⟩
    have hp2 : ∀ i ∈ line, (cellAt board i == player) = true :=
      fun i hi => beq_iff_eq.mpr (hp i hi)
    unfold TicTacToeAdapter.generate_lines at hmem
    simp only [List.mem_append] at hmem
    rcases hmem with ((h | h) | h) | h
    · exact Or.inl (Or.inl (Or.inl (e1.mpr ⟨line, h, hp2⟩)))
    · exact Or.inl (Or.inl (Or.inr (e2.mpr ⟨line, h, hp2⟩)))
    · exact Or.inl (Or.inr (e3.mpr ⟨line, h, hp2⟩))
    · exact Or.inr (e4.mpr ⟨line, h, hp2⟩)

/-- Witness for C5 on a concrete 2×2 board whose first row is the computer
mark. -/
theorem check_winner_iff_generate_lines_witness :
    (["O", "O", "3", "4"] : List String).length = 2 * 2
    ∧ 1 ≤ 2 ∧ 2 ≤ 2
    ∧ (check_winner ["O", "O", "3", "4"] "O" 2 2 = true ↔
        ∃ line ∈ TicTacToeAdapter.generate_lines {size := 2, to_win := 2},
          ∀ i ∈ line, cellAt ["O", "O", "3", "4"] i = "O") :=
  ⟨by decide, by decide, by decide,
    check_winner_iff_generate_lines {size := 2, to_win := 2}
      ["O", "O", "3", "4"] "O" (by decide) (by decide) (by decide)⟩
